import Mathlib

/-!
Verification of the chatter IRC client core against its specification.

The development shallowly embeds the C sources (irc.c, buffer.c, commands.c,
tui.c) as pure Lean functions.  Byte streams and C strings are modelled as
`List Char`; a NUL character ('\x00') models the C string terminator, and the
framing layer reproduces the C `strstr` behaviour of stopping at the first NUL.
Line-level values (buffer lines, protocol lines) are produced by the framing
layer, which never yields a line containing NUL, so line-level definitions
treat their arguments as NUL-free C strings and `snprintf`-style formatting is
modelled as plain concatenation (all formatted values in the claims are far
below the C buffer caps).
-/

namespace Chatter

abbrev Str := List Char

/-- Convert a Lean string literal to the `List Char` representation used
throughout the development. -/
def str (s : String) : Str := s.toList

/-- The CRLF line terminator. -/
def CRLF : Str := ['\r', '\n']

/-! ## Framing layer: irc_process_buffer, lines 160-168 and 370-377 of irc.c

The C code repeatedly calls `strstr(current_pos, "\r\n")` on the NUL-terminated
receive buffer, consumes each line up to the CRLF, and finally `memmove`s the
unconsumed tail (by true byte length) to the front of the buffer.  `findCRLF`
models `strstr`: it returns the index of the first CRLF occurring before any
NUL, or `none`. -/

def findCRLF : Str → Option Nat
  | [] => none
  | c1 :: rest =>
    match rest with
    | [] => none
    | c2 :: _ =>
      if c1 = '\x00' then none
      else if c1 = '\r' ∧ c2 = '\n' then some 0
      else (findCRLF rest).map (· + 1)

/-- Fuel-indexed line splitter; `splitLines` instantiates the fuel with the
buffer length, which always suffices. -/
def splitLinesF : Nat → Str → List Str × Str
  | 0, s => ([], s)
  | fuel + 1, s =>
    match findCRLF s with
    | none => ([], s)
    | some i =>
      let rest := splitLinesF fuel (s.drop (i + 2))
      (s.take i :: rest.1, rest.2)

/-- The framing layer of `irc_process_buffer`: the list of complete lines
consumed from the accumulated bytes, and the residual tail retained for the
next feed. -/
def splitLines (s : Str) : List Str × Str := splitLinesF s.length s

/-- Re-serialize consumed lines with their CRLF terminators. -/
def joinLines (ms : List Str) : Str := (ms.map (· ++ CRLF)).flatten

/-- Feed a sequence of byte chunks through the framing layer, carrying the
residual between feeds exactly as `irc_recv`/`irc_process_buffer` do. -/
def feedAllFrom (r : Str) : List Str → List Str × Str
  | [] => ([], r)
  | c :: cs =>
    let p := splitLines (r ++ c)
    let q := feedAllFrom p.2 cs
    (p.1 ++ q.1, q.2)

/-- Feed chunks starting from an empty receive buffer. -/
def feedAll (cs : List Str) : List Str × Str := feedAllFrom [] cs

/-! ### Framing lemmas -/

theorem findCRLF_nil : findCRLF [] = none := rfl

theorem findCRLF_one (c : Char) : findCRLF [c] = none := rfl

theorem findCRLF_cons₂ (c1 c2 : Char) (t : List Char) :
    findCRLF (c1 :: c2 :: t) =
      if c1 = '\x00' then none
      else if c1 = '\r' ∧ c2 = '\n' then some 0
      else (findCRLF (c2 :: t)).map (· + 1) := rfl

theorem findCRLF_bound : ∀ (s : Str) (i : Nat), findCRLF s = some i →
    s.drop i = '\r' :: '\n' :: s.drop (i + 2) := by
  intro s
  induction s with
  | nil => intro i h; simp [findCRLF_nil] at h
  | cons c1 rest ih =>
    intro i h
    cases rest with
    | nil => simp [findCRLF_one] at h
    | cons c2 t =>
      rw [findCRLF_cons₂] at h
      split_ifs at h with h1 h2
      · simp at h
        obtain ⟨hc1, hc2⟩ := h2
        subst hc1; subst hc2; subst h
        simp
      · rw [Option.map_eq_some'] at h
        obtain ⟨j, hj, hij⟩ := h
        subst hij
        have := ih j hj
        simpa using this

theorem findCRLF_le {s : Str} {i : Nat} (h : findCRLF s = some i) :
    i + 2 ≤ s.length := by
  have hb := findCRLF_bound s i h
  have hne : s.drop i ≠ [] := by rw [hb]; simp
  have hi : i < s.length := by
    by_contra hle
    push_neg at hle
    exact hne (List.drop_eq_nil_of_le hle)
  have hlen := congrArg List.length hb
  simp [List.length_drop] at hlen
  omega

theorem findCRLF_append : ∀ (s b : Str) (i : Nat), findCRLF s = some i →
    findCRLF (s ++ b) = some i := by
  intro s
  induction s with
  | nil => intro b i h; simp [findCRLF_nil] at h
  | cons c1 rest ih =>
    intro b i h
    cases rest with
    | nil => simp [findCRLF_one] at h
    | cons c2 t =>
      rw [findCRLF_cons₂] at h
      split_ifs at h with h1 h2
      · simp at h
        subst h
        rw [List.cons_append, List.cons_append, findCRLF_cons₂,
          if_neg h1, if_pos h2]
      · rw [Option.map_eq_some'] at h
        obtain ⟨j, hj, hij⟩ := h
        have := ih b j hj
        rw [List.cons_append, List.cons_append, findCRLF_cons₂,
          if_neg h1, if_neg h2, ← List.cons_append, this]
        simp [hij]

theorem findCRLF_none_no_crlf : ∀ (s : Str), findCRLF s = none → '\x00' ∉ s →
    ¬ ∃ u v, s = u ++ '\r' :: '\n' :: v := by
  intro s
  induction s with
  | nil =>
    rintro _ _ ⟨u, v, he⟩
    have hlen := congrArg List.length he
    simp at hlen
    omega
  | cons c1 rest ih =>
    rintro h h0 ⟨u, v, he⟩
    cases rest with
    | nil =>
      have hlen := congrArg List.length he
      simp at hlen
      omega
    | cons c2 t =>
      rw [findCRLF_cons₂] at h
      split_ifs at h with h1 h2
      · exact h0 (by simp [h1])
      · cases u with
        | nil =>
          simp at he
          exact h2 ⟨he.1, he.2.1⟩
        | cons d u2 =>
          simp at he
          have hrest : findCRLF (c2 :: t) = none := by
            cases hh : findCRLF (c2 :: t) with
            | none => rfl
            | some j => rw [hh] at h; simp at h
          exact ih hrest (fun hm => h0 (List.mem_cons_of_mem _ hm)) ⟨u2, v, he.2⟩

theorem no_cr_findCRLF_none : ∀ (s : Str), '\r' ∉ s → findCRLF s = none := by
  intro s
  induction s with
  | nil => intro _; rfl
  | cons c1 rest ih =>
    intro h
    cases rest with
    | nil => rfl
    | cons c2 t =>
      rw [findCRLF_cons₂]
      have hc1 : c1 ≠ '\r' := fun he => h (by simp [he])
      rw [ih (fun hm => h (List.mem_cons_of_mem _ hm))]
      split_ifs with h1 h2
      · rfl
      · exact absurd h2.1 hc1
      · rfl

theorem findCRLF_take_no_nul : ∀ (s : Str) (i : Nat), findCRLF s = some i →
    '\x00' ∉ s.take i := by
  intro s
  induction s with
  | nil => intro i h; simp [findCRLF_nil] at h
  | cons c1 rest ih =>
    intro i h
    cases rest with
    | nil => simp [findCRLF_one] at h
    | cons c2 t =>
      rw [findCRLF_cons₂] at h
      split_ifs at h with h1 h2
      · simp at h
        subst h
        simp
      · rw [Option.map_eq_some'] at h
        obtain ⟨j, hj, hij⟩ := h
        subst hij
        intro hm
        rw [List.take_cons (by omega)] at hm
        rcases List.mem_cons.mp hm with he | hm2
        · exact h1 he.symm
        · exact ih j hj (by simpa using hm2)

theorem splitLinesF_congr : ∀ (f1 : Nat), ∀ {f2 : Nat} {s : Str},
    s.length ≤ f1 → s.length ≤ f2 → splitLinesF f1 s = splitLinesF f2 s := by
  intro f1
  induction f1 with
  | zero =>
    intro f2 s h1 _
    have : s = [] := List.eq_nil_of_length_eq_zero (Nat.le_zero.mp h1)
    subst this
    cases f2 with
    | zero => rfl
    | succ g => simp [splitLinesF, findCRLF]
  | succ f ih =>
    intro f2 s h1 h2
    cases f2 with
    | zero =>
      have : s = [] := List.eq_nil_of_length_eq_zero (Nat.le_zero.mp h2)
      subst this
      simp [splitLinesF, findCRLF]
    | succ g =>
      simp only [splitLinesF]
      cases h : findCRLF s with
      | none => rfl
      | some i =>
        have hle := findCRLF_le h
        have hdf : (s.drop (i + 2)).length ≤ f := by
          simp [List.length_drop]; omega
        have hdg : (s.drop (i + 2)).length ≤ g := by
          simp [List.length_drop]; omega
        simp only [ih hdf hdg]

theorem splitLines_eq (s : Str) :
    splitLines s =
      match findCRLF s with
      | none => ([], s)
      | some i =>
        ((s.take i) :: (splitLines (s.drop (i + 2))).1,
         (splitLines (s.drop (i + 2))).2) := by
  cases h : findCRLF s with
  | none =>
    cases s with
    | nil => rfl
    | cons c t =>
      show splitLinesF (c :: t).length (c :: t) = _
      simp only [List.length_cons, splitLinesF, h]
  | some i =>
    have hle := findCRLF_le h
    have hpos : 0 < s.length := by omega
    obtain ⟨n, hn⟩ := Nat.exists_eq_succ_of_ne_zero (Nat.pos_iff_ne_zero.mp hpos)
    show splitLinesF s.length s = _
    rw [hn]
    simp only [splitLinesF, h]
    have hcongr : splitLinesF n (s.drop (i + 2)) = splitLines (s.drop (i + 2)) := by
      apply splitLinesF_congr
      · simp [List.length_drop]; omega
      · exact Nat.le_refl _
    rw [hcongr]

theorem splitLines_of_none {s : Str} (h : findCRLF s = none) :
    splitLines s = ([], s) := by
  have he := splitLines_eq s
  rw [h] at he
  exact he

theorem splitLines_of_some {s : Str} {i : Nat} (h : findCRLF s = some i) :
    splitLines s =
      ((s.take i) :: (splitLines (s.drop (i + 2))).1,
       (splitLines (s.drop (i + 2))).2) := by
  have he := splitLines_eq s
  rw [h] at he
  exact he

/-- No line produced by the framing layer contains a NUL byte: the scan stops
at the first NUL, so every consumed line lies strictly before it.  This is
what lets the line-level definitions treat their arguments as NUL-free C
strings. -/
theorem splitLines_no_nul (s : Str) :
    ∀ m ∈ (splitLines s).1, '\x00' ∉ m := by
  cases h : findCRLF s with
  | none =>
    rw [splitLines_of_none h]
    intro m hm
    simp at hm
  | some i =>
    have hle := findCRLF_le h
    rw [splitLines_of_some h]
    intro m hm
    rcases List.mem_cons.mp hm with he | hm2
    · subst he
      exact findCRLF_take_no_nul s i h
    · exact splitLines_no_nul (s.drop (i + 2)) m hm2
termination_by s.length
decreasing_by
  simp [List.length_drop]
  omega

/-- Round-trip: the consumed lines re-serialized with CRLF, followed by the
residual, reproduce the input byte stream exactly. -/
theorem splitLines_roundtrip (s : Str) :
    joinLines (splitLines s).1 ++ (splitLines s).2 = s := by
  cases h : findCRLF s with
  | none => rw [splitLines_of_none h]; simp [joinLines]
  | some i =>
    have hb := findCRLF_bound s i h
    have hle := findCRLF_le h
    have ih := splitLines_roundtrip (s.drop (i + 2))
    have hCRLF : CRLF ++ s.drop (i + 2) = s.drop i := by rw [hb]; rfl
    rw [splitLines_of_some h]
    calc joinLines ((s.take i) :: (splitLines (s.drop (i + 2))).1)
            ++ (splitLines (s.drop (i + 2))).2
        = s.take i ++ (CRLF ++ (joinLines (splitLines (s.drop (i + 2))).1
            ++ (splitLines (s.drop (i + 2))).2)) := by
          simp [joinLines, List.append_assoc]
      _ = s.take i ++ (CRLF ++ s.drop (i + 2)) := by rw [ih]
      _ = s.take i ++ s.drop i := by rw [hCRLF]
      _ = s := List.take_append_drop i s
termination_by s.length
decreasing_by
  simp [List.length_drop]
  omega

/-- The residual never contains a (strstr-findable) CRLF. -/
theorem splitLines_resid_none (s : Str) : findCRLF (splitLines s).2 = none := by
  cases h : findCRLF s with
  | none => rw [splitLines_of_none h]; exact h
  | some i =>
    have hle := findCRLF_le h
    rw [splitLines_of_some h]
    exact splitLines_resid_none (s.drop (i + 2))
termination_by s.length
decreasing_by
  simp [List.length_drop]
  omega

/-- On NUL-free streams the residual contains no CRLF at all: it is exactly
the suffix after the final CRLF. -/
theorem splitLines_resid_noCRLF (s : Str) (h0 : '\x00' ∉ s) :
    ¬ ∃ u v, (splitLines s).2 = u ++ '\r' :: '\n' :: v := by
  cases h : findCRLF s with
  | none => rw [splitLines_of_none h]; exact findCRLF_none_no_crlf s h h0
  | some i =>
    have hle := findCRLF_le h
    rw [splitLines_of_some h]
    exact splitLines_resid_noCRLF (s.drop (i + 2))
      (fun hm => h0 (List.drop_subset _ _ hm))
termination_by s.length
decreasing_by
  simp [List.length_drop]
  omega

/-- Splitting a stream at any byte boundary and feeding the two parts in
succession yields the same messages and residual as feeding it whole. -/
theorem splitLines_split (a b : Str) :
    (splitLines (a ++ b)).1
        = (splitLines a).1 ++ (splitLines ((splitLines a).2 ++ b)).1
    ∧ (splitLines (a ++ b)).2 = (splitLines ((splitLines a).2 ++ b)).2 := by
  cases h : findCRLF a with
  | none => rw [splitLines_of_none h]; simp
  | some i =>
    have hle := findCRLF_le h
    have hab : findCRLF (a ++ b) = some i := findCRLF_append a b i h
    have htake : (a ++ b).take i = a.take i :=
      List.take_append_of_le_length (by omega)
    have hdrop : (a ++ b).drop (i + 2) = a.drop (i + 2) ++ b :=
      List.drop_append_of_le_length (by omega)
    have ih := splitLines_split (a.drop (i + 2)) b
    rw [splitLines_of_some h, splitLines_of_some hab, htake, hdrop]
    constructor
    · simp only [ih.1, List.cons_append]
    · simp only [ih.2]
termination_by a.length
decreasing_by
  simp [List.length_drop]
  omega

theorem feedAllFrom_eq : ∀ (cs : List Str) (r : Str), findCRLF r = none →
    feedAllFrom r cs = splitLines (r ++ cs.flatten) := by
  intro cs
  induction cs with
  | nil =>
    intro r hr
    simp only [feedAllFrom, List.flatten_nil, List.append_nil]
    rw [splitLines_of_none hr]
  | cons c cs ih =>
    intro r hr
    simp only [feedAllFrom, List.flatten_cons]
    have hres := splitLines_resid_none (r ++ c)
    have hsplit := splitLines_split (r ++ c) cs.flatten
    rw [ih _ hres]
    rw [← List.append_assoc]
    exact Prod.ext hsplit.1.symm hsplit.2.symm

/-- Feeding chunks one at a time from an empty buffer equals splitting the
concatenated stream in one shot. -/
theorem feedAll_eq (cs : List Str) : feedAll cs = splitLines cs.flatten := by
  have := feedAllFrom_eq cs [] rfl
  simpa [feedAll] using this

/-- C1 (amended: restricted to streams containing no NUL byte, since the C
code scans the receive buffer as a NUL-terminated string and a NUL conceals
any later CRLF).  For every NUL-free byte stream fed to the inbound parser:
the consumed messages are exactly CRLF-terminated prefixes and the residual is
retained verbatim (round-trip); the residual contains no CRLF, so it is
exactly the bytes after the final CRLF; a stream without CR (in particular one
using lone LF terminators) produces no messages; and feeding the stream split
at any byte boundaries across successive feeds produces the same message
sequence and residual as feeding it whole. -/
theorem c1_crlf_framing (s : Str) (hnul : '\x00' ∉ s) :
    joinLines (splitLines s).1 ++ (splitLines s).2 = s
    ∧ (¬ ∃ u v, (splitLines s).2 = u ++ '\r' :: '\n' :: v)
    ∧ ('\r' ∉ s → splitLines s = ([], s))
    ∧ (∀ cs : List Str, cs.flatten = s → feedAll cs = splitLines s) := by
  refine ⟨splitLines_roundtrip s, splitLines_resid_noCRLF s hnul, ?_, ?_⟩
  · intro hcr
    exact splitLines_of_none (no_cr_findCRLF_none s hcr)
  · intro cs hc
    rw [feedAll_eq, hc]

/-- C1 fails as stated on streams containing a NUL byte: on the stream
"\x00\r\n" the parser consumes nothing and retains the entire stream —
including a CRLF — as the residual, whereas the bytes after the final CRLF of
the stream are empty. -/
theorem c1_nul_counterexample :
    (splitLines ['\x00', '\r', '\n']).1 = []
    ∧ (splitLines ['\x00', '\r', '\n']).2 = ['\x00', '\r', '\n']
    ∧ ∃ u v, ['\x00', '\r', '\n'] = u ++ '\r' :: '\n' :: v :=
  ⟨rfl, rfl, ['\x00'], [], rfl⟩

/-- Witness for C1 on the spec's split-frame scenario: the stream
"PING :xyz\r\nPING :q\r\n" fed as "PING :x" then "yz\r\nPING :q\r\n". -/
theorem c1_crlf_framing_witness :
    ('\x00' ∉ str "PING :xyz\r\nPING :q\r\n")
    ∧ joinLines (splitLines (str "PING :xyz\r\nPING :q\r\n")).1
        ++ (splitLines (str "PING :xyz\r\nPING :q\r\n")).2
        = str "PING :xyz\r\nPING :q\r\n"
    ∧ feedAll [str "PING :x", str "yz\r\nPING :q\r\n"]
        = splitLines (str "PING :xyz\r\nPING :q\r\n") :=
  ⟨by decide, (c1_crlf_framing _ (by decide)).1,
    (c1_crlf_framing _ (by decide)).2.2.2 _ (by decide)⟩

/-! ## Character classification (ctype.h, "C" locale) -/

/-- C `isspace`. -/
def cIsSpace (c : Char) : Bool :=
  c = ' ' ∨ c = '\t' ∨ c = '\n' ∨ c = '\x0b' ∨ c = '\x0c' ∨ c = '\r'

/-- C `isprint`. -/
def cIsPrint (c : Char) : Bool := 0x20 ≤ c.toNat ∧ c.toNat ≤ 0x7e

/-- Trim leading and trailing `isspace` characters, as the PRIVMSG target
trimming in irc.c lines 277-280 does. -/
def ctrim (s : Str) : Str :=
  ((s.dropWhile cIsSpace).reverse.dropWhile cIsSpace).reverse

/-- Modelled from the spec's words (§4.1 `append`): strip non-printable
characters, then trim leading/trailing whitespace.  The source's
`buffer_append_message` performs no such sanitization; this definition exists
only to compare the spec's contract with the code. -/
def spec_sanitize (s : Str) : Str := ctrim (s.filter cIsPrint)

/-! ## Buffer model (buffer.c) -/

/-- One node of the buffer list (`buffer_node_t`).  The intrusive `prev`/`next`
pointers and the `active` flag are represented by the position in the store's
list and by the store's `active` name; `capacity` is an allocation detail with
no observable effect. -/
structure Buffer where
  name : Str
  lines : List Str
  scroll_offset : Int
  at_bottom : Bool
deriving DecidableEq

/-- `create_buffer` (buffer.c lines 50-72). -/
def create_buffer (name : Str) : Buffer :=
  { name := name, lines := [], scroll_offset := 0, at_bottom := true }

/-- `buffer_append_message` (buffer.c lines 101-132): pushes the message
verbatim; if `at_bottom` is set (and the new line count is positive, which it
always is) the scroll offset becomes `line_count - 1`, the index of the last
stored line; otherwise the offset is left unchanged. -/
def buffer_append_message (b : Buffer) (msg : Str) : Buffer :=
  { b with
    lines := b.lines ++ [msg],
    scroll_offset :=
      if b.at_bottom ∧ b.lines.length + 1 > 0 then ((b.lines.length + 1 : Nat) : Int) - 1
      else b.scroll_offset }

/-- The circular doubly-linked buffer list with its head and active pointer
(globals `buffer_list_head`, `active_buffer`): the cyclic order is the list
order, and the active buffer is designated by name. -/
structure Store where
  bufs : List Buffer
  active : Str
deriving DecidableEq

/-- The reserved name of the server/system buffer. -/
def statusN : Str := str "status"

/-- `get_buffer_by_name` (buffer.c lines 139-153): first node with the given
name, scanning from the head. -/
def get_buffer_by_name (st : Store) (name : Str) : Option Buffer :=
  st.bufs.find? (fun b => b.name == name)

/-- `add_buffer` (buffer.c lines 78-94): inserts before the head of the
circular list, i.e. appends at the tail of the order starting at the head. -/
def add_buffer (st : Store) (b : Buffer) : Store :=
  { st with bufs := st.bufs ++ [b] }

/-- `set_active_buffer` (buffer.c lines 159-169). -/
def set_active_buffer (st : Store) (b : Buffer) : Store :=
  { st with active := b.name }

/-- Apply `f` to the first node with the given name, as mutating the node
returned by `get_buffer_by_name` does. -/
def updateFirst (f : Buffer → Buffer) (name : Str) : List Buffer → List Buffer
  | [] => []
  | b :: bs => if b.name = name then f b :: bs else b :: updateFirst f name bs

/-- `buffer_append_message(get_buffer_by_name(st, name), msg)` guarded by the
null check: a no-op when no buffer of that name exists. -/
def appendToNamed (st : Store) (name : Str) (msg : Str) : Store :=
  { st with bufs := updateFirst (fun b => buffer_append_message b msg) name st.bufs }

/-- The get-or-create-and-add pattern used by the PRIVMSG/JOIN routing
(irc.c lines 284-288, 295-299, 336-341). -/
def getOrCreate (st : Store) (name : Str) : Store :=
  if (get_buffer_by_name st name).isSome then st
  else add_buffer st (create_buffer name)

/-- Modelled from the spec: `remove_buffer` is declared in buffer.h and called
from `handle_part_command`, but its definition is not among the sources.  Per
the spec (§3, §4.1), removal unlinks the buffer from the cycle; destroying the
active buffer shifts the active selection to its neighbour (the next buffer in
the cyclic order); removing the `"status"` buffer is forbidden. -/
def remove_buffer (st : Store) (name : Str) : Store :=
  if name = statusN then st
  else
    match st.bufs.findIdx? (fun b => b.name == name) with
    | none => st
    | some i =>
      let active' :=
        if st.active = name then
          match st.bufs[(i + 1) % st.bufs.length]? with
          | some nb => nb.name
          | none => statusN
        else st.active
      { bufs := st.bufs.eraseIdx i, active := active' }

/-- The lines of the buffer named `n`, if it exists: the observable content
the routing claims speak about. -/
def bufLines (st : Store) (n : Str) : Option (List Str) :=
  (get_buffer_by_name st n).map (·.lines)

/-! ## Scroll arithmetic (tui.c) -/

/-- Displayed row count of one stored line of length `L` with text width `W`:
`(L + W - 1) / W` (tui.c lines 213-214, 400-402). -/
def displayed_lines (W : Nat) (line : Str) : Nat := (line.length + W - 1) / W

/-- Total displayed rows of a buffer. -/
def total_display (W : Nat) (b : Buffer) : Nat :=
  (b.lines.map (displayed_lines W)).sum

/-- `max_scroll` as computed in `handle_scroll` and `tui_refresh_main_buffer`:
`total > H ? total - H : 0` with `H = win_height - 2`, which equals
`max(0, total_display - H)`. -/
def max_scroll (b : Buffer) (win_height win_width : Int) : Int :=
  let W := (win_width - 2).toNat
  let total : Int := (total_display W b : Nat)
  let viewH := win_height - 2
  if total > viewH then total - viewH else 0

/-- `handle_scroll` (tui.c lines 390-418): add the page delta to the scroll
offset, clamp into `[0, max_scroll]`, and recompute `at_bottom` as
`offset == max_scroll`.  Returns the buffer unchanged when the text width is
not positive. -/
def handle_scroll (b : Buffer) (page : Int) (win_height win_width : Int) : Buffer :=
  if win_width - 2 ≤ 0 then b
  else
    let maxS := max_scroll b win_height win_width
    let o1 := b.scroll_offset + page
    let o2 := if o1 > maxS then maxS else o1
    let o3 := if o2 < 0 then 0 else o2
    { b with scroll_offset := o3, at_bottom := o3 = maxS }

/-! ## Outbound path: irc_send (irc.c lines 139-158) -/

/-- The status-buffer echo of an outbound line: `"-> "` followed by the data
with everything from the first CRLF on removed (and, being a C string, from
the first NUL on). -/
def echoLine (data : Str) : Str :=
  str "-> " ++
    (match findCRLF data with
     | some i => data.take i
     | none => data.takeWhile (fun c => c != '\x00'))

/-- The state effect of `irc_send`: the echo is appended to the `"status"`
buffer (when it exists) before the transport write is attempted. -/
def irc_send_effect (st : Store) (data : Str) : Store :=
  appendToNamed st statusN (echoLine data)

/-- Full `irc_send`, with the transport outcome made explicit: the echo is
recorded first, then the write is attempted; the return value is the number
of bytes written, or -1 on failure, and the store result does not depend on
the outcome. -/
def irc_send (st : Store) (data : Str) (write_ok : Bool) : Store × Int :=
  let st' := irc_send_effect st data
  (st', if write_ok then (data.length : Int) else -1)

/-! ### Store lemmas -/

theorem buffer_append_message_name (b : Buffer) (msg : Str) :
    (buffer_append_message b msg).name = b.name := rfl

theorem buffer_append_message_lines (b : Buffer) (msg : Str) :
    (buffer_append_message b msg).lines = b.lines ++ [msg] := rfl

theorem find?_updateFirst (f : Buffer → Buffer) (hf : ∀ b, (f b).name = b.name)
    (n : Str) : ∀ bs : List Buffer,
    (updateFirst f n bs).find? (fun b => b.name == n)
      = (bs.find? (fun b => b.name == n)).map f := by
  intro bs
  induction bs with
  | nil => rfl
  | cons b bs ih =>
    by_cases hb : b.name = n
    · rw [updateFirst, if_pos hb]
      rw [List.find?_cons_of_pos _ (by simp [hf, hb]),
        List.find?_cons_of_pos _ (by simp [hb])]
      rfl
    · rw [updateFirst, if_neg hb]
      rw [List.find?_cons_of_neg _ (by simp [hb]),
        List.find?_cons_of_neg _ (by simp [hb])]
      exact ih

theorem find?_updateFirst_ne (f : Buffer → Buffer) (hf : ∀ b, (f b).name = b.name)
    (n m : Str) (hnm : m ≠ n) : ∀ bs : List Buffer,
    (updateFirst f n bs).find? (fun b => b.name == m)
      = bs.find? (fun b => b.name == m) := by
  intro bs
  induction bs with
  | nil => rfl
  | cons b bs ih =>
    by_cases hb : b.name = n
    · have hm : ¬ b.name = m := fun he => hnm (he ▸ hb)
      rw [updateFirst, if_pos hb]
      rw [List.find?_cons_of_neg _ (by simp [hf, hm]),
        List.find?_cons_of_neg _ (by simp [hm])]
    · rw [updateFirst, if_neg hb]
      by_cases hm : b.name = m
      · rw [List.find?_cons_of_pos _ (by simp [hm]),
          List.find?_cons_of_pos _ (by simp [hm])]
      · rw [List.find?_cons_of_neg _ (by simp [hm]),
          List.find?_cons_of_neg _ (by simp [hm])]
        exact ih

theorem bufLines_appendToNamed_self (st : Store) (n m : Str) :
    bufLines (appendToNamed st n m) n = (bufLines st n).map (· ++ [m]) := by
  unfold bufLines get_buffer_by_name appendToNamed
  rw [find?_updateFirst (fun b => buffer_append_message b m) (fun b => rfl) n st.bufs]
  cases st.bufs.find? (fun b => b.name == n) <;> rfl

theorem bufLines_appendToNamed_other (st : Store) (n m k : Str) (h : k ≠ n) :
    bufLines (appendToNamed st n m) k = bufLines st k := by
  unfold bufLines get_buffer_by_name appendToNamed
  rw [find?_updateFirst_ne (fun b => buffer_append_message b m) (fun b => rfl)
    n k h st.bufs]

theorem get_appendToNamed_isSome (st : Store) (n m k : Str) :
    (get_buffer_by_name (appendToNamed st n m) k).isSome
      = (get_buffer_by_name st k).isSome := by
  by_cases h : k = n
  · subst h
    unfold get_buffer_by_name appendToNamed
    rw [find?_updateFirst (fun b => buffer_append_message b m) (fun b => rfl)
      k st.bufs]
    cases st.bufs.find? (fun b => b.name == k) <;> rfl
  · unfold get_buffer_by_name appendToNamed
    rw [find?_updateFirst_ne (fun b => buffer_append_message b m) (fun b => rfl)
      n k h st.bufs]

theorem appendToNamed_active (st : Store) (n m : Str) :
    (appendToNamed st n m).active = st.active := rfl

theorem bufLines_getOrCreate_self (st : Store) (n : Str) :
    bufLines (getOrCreate st n) n = some ((bufLines st n).getD []) := by
  unfold getOrCreate
  cases hg : get_buffer_by_name st n with
  | some b =>
    rw [if_pos (by rfl)]
    simp [bufLines, hg]
  | none =>
    rw [if_neg (by simp)]
    unfold bufLines get_buffer_by_name add_buffer
    unfold get_buffer_by_name at hg
    simp only [List.find?_append, hg]
    simp [create_buffer]

theorem bufLines_getOrCreate_other (st : Store) (n k : Str) (h : k ≠ n) :
    bufLines (getOrCreate st n) k = bufLines st k := by
  unfold getOrCreate
  split_ifs with hs
  · rfl
  · unfold bufLines get_buffer_by_name add_buffer
    simp only [List.find?_append]
    cases hf : st.bufs.find? (fun b => b.name == k) with
    | some b => rfl
    | none =>
      simp [create_buffer, Ne.symm h]

theorem getOrCreate_active (st : Store) (n : Str) :
    (getOrCreate st n).active = st.active := by
  unfold getOrCreate
  split_ifs <;> rfl

/-! ### C7: append sanitization -/

/-- C7 (amended): `buffer_append_message` stores the text verbatim — it does
not sanitize or trim — and is never a no-op: every append pushes exactly one
line. -/
theorem c7_append_verbatim (b : Buffer) (msg : Str) :
    (buffer_append_message b msg).lines = b.lines ++ [msg]
    ∧ (buffer_append_message b msg).lines.length = b.lines.length + 1 := by
  refine ⟨rfl, ?_⟩
  simp [buffer_append_message]

/-- C7 fails as stated: the text "  " sanitizes to the empty string, so the
spec requires the append to be a no-op, but the code pushes the line
unchanged. -/
theorem c7_counterexample :
    spec_sanitize (str "  ") = []
    ∧ (buffer_append_message (create_buffer statusN) (str "  ")).lines
        ≠ (create_buffer statusN).lines := by
  constructor
  · decide
  · decide

/-! ### C8: scroll offset on append -/

/-- C8 (amended): on an append while `at_bottom` is true, `scroll_offset` is
set to the index of the (new) last stored line, `line_count - 1` — not kept
at 0; on an append while `at_bottom` is false, `scroll_offset` is left
unchanged — not advanced by the displayed-line count.  `at_bottom` itself is
preserved. -/
theorem c8_append_scroll (b : Buffer) (msg : Str) :
    (buffer_append_message b msg).at_bottom = b.at_bottom
    ∧ (b.at_bottom = true →
        (buffer_append_message b msg).scroll_offset
          = ((buffer_append_message b msg).lines.length : Int) - 1)
    ∧ (b.at_bottom = false →
        (buffer_append_message b msg).scroll_offset = b.scroll_offset) := by
  refine ⟨rfl, ?_, ?_⟩
  · intro h
    simp [buffer_append_message, h]
  · intro h
    simp [buffer_append_message, h]

/-- C8 fails as stated: starting from a fresh buffer (at bottom, offset 0),
appending "a" and then "b" leaves `at_bottom` true but moves `scroll_offset`
to 1, while the claim requires it to stay 0. -/
theorem c8_counterexample :
    (buffer_append_message (create_buffer statusN) (str "a")).at_bottom = true
    ∧ (buffer_append_message
        (buffer_append_message (create_buffer statusN) (str "a"))
        (str "b")).scroll_offset ≠ 0 := by
  constructor
  · decide
  · decide

/-! ### C9: scroll offset bounds -/

/-- C9 (amended): after every scroll (page-key) operation with a positive text
width, `scroll_offset` lies in `[0, max_scroll]` where
`max_scroll = max(0, total_display - H)`.  Appends do not maintain this bound
(see the counterexample); the offset is only re-clamped on the next redraw of
the active buffer. -/
theorem c9_scroll_clamped (b : Buffer) (page win_height win_width : Int)
    (hw : 0 < win_width - 2) :
    0 ≤ (handle_scroll b page win_height win_width).scroll_offset
    ∧ (handle_scroll b page win_height win_width).scroll_offset
        ≤ max_scroll b win_height win_width := by
  unfold handle_scroll
  rw [if_neg (by omega)]
  dsimp only
  have hmax : 0 ≤ max_scroll b win_height win_width := by
    unfold max_scroll
    dsimp only
    split_ifs with h <;> omega
  constructor <;> split_ifs <;> omega

/-- C9 fails for appends: five one-character lines appended at the bottom of a
fresh buffer leave `scroll_offset = 4`, while `max_scroll` for a 12x12 window
(text width 10, content height 10) is 0. -/
theorem c9_counterexample :
    (List.foldl buffer_append_message (create_buffer statusN)
      [str "a", str "b", str "c", str "d", str "e"]).scroll_offset
    > max_scroll
        (List.foldl buffer_append_message (create_buffer statusN)
          [str "a", str "b", str "c", str "d", str "e"]) 12 12 := by
  decide

/-- Witness for C9 at a concrete scroll. -/
theorem c9_scroll_clamped_witness :
    (0 : Int) < 12 - 2
    ∧ 0 ≤ (handle_scroll (create_buffer statusN) (-5) 12 12).scroll_offset
    ∧ (handle_scroll (create_buffer statusN) (-5) 12 12).scroll_offset
        ≤ max_scroll (create_buffer statusN) 12 12 :=
  ⟨by decide, (c9_scroll_clamped (create_buffer statusN) (-5) 12 12 (by decide)).1,
    (c9_scroll_clamped (create_buffer statusN) (-5) 12 12 (by decide)).2⟩

/-! ## Inbound line decoding (irc_process_buffer, irc.c lines 186-256)

The per-line parse: an optional source (introduced by a leading ':', running
to the first space, with further spaces skipped before the command), the
command token (up to the next space, truncated to 15 bytes by the
`out_command_buf` copy), and the parameters.  Note that irc.c line 255
reassigns `params = space_after_command + 1`, undoing the space skipping of
lines 232-234, so the parameter string starts directly after the first space
following the command. -/

/-- Split at the first occurrence of `ch` (C `strchr`): the part before it,
and `some` of the part after it, or `none` when `ch` does not occur. -/
def splitAtChar (ch : Char) (l : Str) : Str × Option Str :=
  match l.dropWhile (fun c => c != ch) with
  | [] => (l, none)
  | _ :: rest => (l.takeWhile (fun c => c != ch), some rest)

structure Parsed where
  pfx : Option Str
  command : Str
  params : Option Str
deriving DecidableEq

/-- Command extraction once the command start has been located (irc.c lines
218-256): fail on an empty rest, else take the token up to the next space
(truncated to 15 bytes) and the raw parameter tail. -/
def parseTail (px : Option Str) (cmdStart : Str) : Option Parsed :=
  if cmdStart = [] then none
  else
    match splitAtChar ' ' cmdStart with
    | (tok, none) => some ⟨px, tok.take 15, none⟩
    | (tok, some rest) => some ⟨px, tok.take 15, some rest⟩

/-- Decoding of one inbound line (irc.c lines 191-256): a line whose first
byte is ':' carries a source running to the first space (a prefixed line with
no space is malformed and yields nothing); the command then starts after any
further spaces. -/
def parseLine (l : Str) : Option Parsed :=
  match l with
  | [] => none
  | c :: rest =>
    if c = ':' then
      match splitAtChar ' ' rest with
      | (_, none) => none
      | (pfxStr, some afterSp) =>
        parseTail (some pfxStr) (afterSp.dropWhile (fun d => d == ' '))
    else
      parseTail none ((c :: rest).dropWhile (fun d => d == ' '))

/-! ## Session engine state and routing (irc.c lines 160-379) -/

inductive IrcSt
  | disconnected
  | connecting
  | connected
  | registering
  | registered
deriving DecidableEq

/-- The session fields the routing logic reads (struct Irc as used by irc.c),
together with the buffer store it mutates. -/
structure Eng where
  irc_state : IrcSt
  nickname : Str
  channel : Str
  store : Store
deriving DecidableEq

/-- The sender nickname part of a source: everything before the first '!'
(irc.c lines 293-294, 308-310, 332-334). -/
def nickOnly (px : Str) : Str := px.takeWhile (fun c => c != '!')

/-- PRIVMSG routing (irc.c lines 269-324).  The skip guard at line 317
compares the target node against the status node by pointer; with first-match
lookup two non-null nodes coincide exactly when their names do, and the
status pointer is null exactly when no "status" buffer existed. -/
def handlePrivmsg (e : Eng) (pfxOpt : Option Str) (p : Str) : Eng :=
  match splitAtChar ':' p with
  | (_, none) => e
  | (tRaw, some msg) =>
    let target := ctrim tRaw
    let statusExisted := (get_buffer_by_name e.store statusN).isSome
    let route : Option Str × Store :=
      if target.head? = some '#' then (some target, getOrCreate e.store target)
      else if target = e.nickname then
        match pfxOpt with
        | some px => (some (nickOnly px), getOrCreate e.store (nickOnly px))
        | none => (none, e.store)
      else (if statusExisted then some statusN else none, e.store)
    match route with
    | (none, st2) => { e with store := st2 }
    | (some n, st2) =>
      let formatted :=
        match pfxOpt with
        | some px => str "<" ++ nickOnly px ++ str "> " ++ msg
        | none => msg
      if n = statusN ∧ statusExisted then { e with store := st2 }
      else { e with store := appendToNamed st2 n formatted }

/-- JOIN routing (irc.c lines 325-353). -/
def handleJoin (e : Eng) (pfxOpt : Option Str) (p : Str) : Eng :=
  let joined := if p.head? = some ':' then p.tail else p
  match pfxOpt with
  | none => e
  | some px =>
    let sn := nickOnly px
    let st2 :=
      if sn = e.nickname ∧ (get_buffer_by_name e.store joined).isNone then
        set_active_buffer (add_buffer e.store (create_buffer joined))
          (create_buffer joined)
      else e.store
    if (get_buffer_by_name st2 joined).isSome then
      { e with store := appendToNamed st2 joined (sn ++ str " has joined " ++ joined) }
    else { e with store := st2 }

/-- Processing of one successfully decoded line (irc.c lines 258-365): the
registration numerics fire first, then the command dispatch (which requires a
non-null parameter string). -/
def process_parsed (e : Eng) (pl : Parsed) : Eng × List Str :=
  let step1 : Eng × List Str :=
    if e.irc_state = IrcSt.registering
        ∧ (pl.command = str "001" ∨ pl.command = str "376") then
      let line := str "JOIN " ++ e.channel ++ CRLF
      ({ e with store := irc_send_effect e.store line,
                irc_state := IrcSt.registered }, [line])
    else (e, [])
  let e1 := step1.1
  let sends := step1.2
  match pl.params with
  | some p =>
    if pl.command = str "PRIVMSG" then (handlePrivmsg e1 pl.pfx p, sends)
    else if pl.command = str "JOIN" then (handleJoin e1 pl.pfx p, sends)
    else if pl.command = str "NOTICE" then
      ({ e1 with store := appendToNamed e1.store statusN (str "-!- " ++ p) }, sends)
    else (e1, sends)
  | none => (e1, sends)

/-- Processing of one framed line (irc.c lines 166-366): the raw line is
appended to the `"status"` buffer first; a line literally beginning with
`"PING :"` is answered at once with `PONG :<rest>\r\n` and nothing else;
any other line is decoded and routed.  The second component lists the
outbound lines in emission order. -/
def process_line (e : Eng) (l : Str) : Eng × List Str :=
  let e0 : Eng := { e with store := appendToNamed e.store statusN l }
  if (str "PING :").isPrefixOf l then
    let pong := str "PONG :" ++ l.drop 6 ++ CRLF
    ({ e0 with store := irc_send_effect e0.store pong }, [pong])
  else
    match parseLine l with
    | none => (e0, [])
    | some pl => process_parsed e0 pl

/-- Processing of a sequence of framed lines in order, concatenating the
outbound traffic. -/
def process_lines (e : Eng) : List Str → Eng × List Str
  | [] => (e, [])
  | l :: ls =>
    let p := process_line e l
    let q := process_lines p.1 ls
    (q.1, p.2 ++ q.2)

/-- The full `irc_process_buffer`: frame the accumulated bytes, process each
complete line, and keep the residual. -/
def irc_process_buffer (e : Eng) (buf : Str) : (Eng × List Str) × Str :=
  (process_lines e (splitLines buf).1, (splitLines buf).2)

/-- A line literally beginning with `"PING :"` decodes to the command
`"PING"` with the rest (starting at the ':') as parameters. -/
theorem parseLine_ping (l : Str) (h : (str "PING :").isPrefixOf l) :
    ∃ t, l = str "PING :" ++ t
      ∧ parseLine l = some ⟨none, str "PING", some (':' :: t)⟩ := by
  obtain ⟨t, ht⟩ := List.isPrefixOf_iff_prefix.mp h
  refine ⟨t, ht.symm, ?_⟩
  rw [← ht]
  rfl

/-! ### C2: PING handling -/

/-- C2 (amended): for every inbound line literally beginning with the six
bytes `"PING :"`, the client immediately emits `PONG :<rest-of-line>\r\n` as
the only outbound traffic for that line — before any traffic caused by later
lines — and independently of the registration state, which it leaves
untouched.  (Lines whose decoded command is PING but that carry a source
or a non-trailing parameter get no reply: see the counterexample.) -/
theorem c2_ping_pong (e : Eng) (l : Str) (ls : List Str)
    (h : (str "PING :").isPrefixOf l) :
    (process_line e l).2 = [str "PONG :" ++ l.drop 6 ++ CRLF]
    ∧ (process_line e l).1.irc_state = e.irc_state
    ∧ (process_lines e (l :: ls)).2
        = (str "PONG :" ++ l.drop 6 ++ CRLF)
            :: (process_lines (process_line e l).1 ls).2 := by
  refine ⟨?_, ?_, ?_⟩
  · simp [process_line, h]
  · simp [process_line, h]
  · show ((process_lines (process_line e l).1 ls).1,
        (process_line e l).2 ++ (process_lines (process_line e l).1 ls).2).2 = _
    have h1 : (process_line e l).2 = [str "PONG :" ++ l.drop 6 ++ CRLF] := by
      simp [process_line, h]
    rw [h1]
    rfl

/-- A convenient concrete session state: registered, nickname
`chatter_user`, channel `#chatter`, a store holding only the `"status"`
buffer. -/
def eng0 : Eng :=
  { irc_state := IrcSt.registered,
    nickname := str "chatter_user",
    channel := str "#chatter",
    store := { bufs := [create_buffer statusN], active := statusN } }

/-- C2 fails as stated: the line `":irc.example PING :abc"` decodes to the
command PING, yet the client emits nothing, because the code only answers
lines that literally begin with `"PING :"`. -/
theorem c2_counterexample :
    (parseLine (str ":irc.example PING :abc")).map Parsed.command
      = some (str "PING")
    ∧ (process_line eng0 (str ":irc.example PING :abc")).2 = [] := by
  constructor
  · decide
  · decide

/-- Witness for C2 on the spec's PING scenario. -/
theorem c2_ping_pong_witness :
    ((str "PING :").isPrefixOf (str "PING :abc") = true)
    ∧ (process_line eng0 (str "PING :abc")).2
        = [str "PONG :" ++ (str "PING :abc").drop 6 ++ CRLF]
    ∧ (process_lines eng0 [str "PING :abc"]).2
        = (str "PONG :" ++ (str "PING :abc").drop 6 ++ CRLF)
            :: (process_lines (process_line eng0 (str "PING :abc")).1 []).2 :=
  ⟨by decide, (c2_ping_pong eng0 _ [] (by decide)).1,
    (c2_ping_pong eng0 _ [] (by decide)).2.2⟩

/-! ### C4: registration numerics -/

/-- C4: whenever the session is Registering and an inbound line decodes to
the numeric command 001 or 376, the engine sends `JOIN <initial_channel>\r\n`
(and nothing else for that line) and moves to Registered. -/
theorem c4_registration_join (e : Eng) (l : Str) (pl : Parsed)
    (hp : parseLine l = some pl)
    (hs : e.irc_state = IrcSt.registering)
    (hc : pl.command = str "001" ∨ pl.command = str "376") :
    (process_line e l).1.irc_state = IrcSt.registered
    ∧ (process_line e l).2 = [str "JOIN " ++ e.channel ++ CRLF] := by
  have hping : ¬ ((str "PING :").isPrefixOf l = true) := by
    intro hpre
    obtain ⟨t, -, hpl⟩ := parseLine_ping l hpre
    rw [hp] at hpl
    simp only [Option.some.injEq] at hpl
    rcases hc with hc | hc <;> rw [hpl] at hc <;>
      [exact absurd (show str "PING" = str "001" from hc) (by decide);
       exact absurd (show str "PING" = str "376" from hc) (by decide)]
  unfold process_line
  rw [if_neg hping, hp]
  dsimp only
  unfold process_parsed
  rw [if_pos ⟨hs, hc⟩]
  dsimp only
  cases hpp : pl.params with
  | none => exact ⟨rfl, rfl⟩
  | some p =>
    dsimp only
    rcases hc with hc | hc <;>
      rw [hc] <;>
      rw [if_neg (by decide), if_neg (by decide), if_neg (by decide)] <;>
      exact ⟨rfl, rfl⟩

/-- The concrete session state of the registration scenario. -/
def engReg : Eng := { eng0 with irc_state := IrcSt.registering }

/-- Witness for C4 on the spec's registration scenario. -/
theorem c4_registration_join_witness :
    parseLine (str ":irc.example 001 chatter_user :Welcome")
      = some ⟨some (str "irc.example"), str "001",
          some (str "chatter_user :Welcome")⟩
    ∧ engReg.irc_state = IrcSt.registering
    ∧ (process_line engReg (str ":irc.example 001 chatter_user :Welcome")).1.irc_state
        = IrcSt.registered
    ∧ (process_line engReg (str ":irc.example 001 chatter_user :Welcome")).2
        = [str "JOIN " ++ engReg.channel ++ CRLF] :=
  ⟨by decide, rfl,
    (c4_registration_join engReg _
      ⟨some (str "irc.example"), str "001", some (str "chatter_user :Welcome")⟩
      (by decide) rfl (Or.inl rfl)).1,
    (c4_registration_join engReg _
      ⟨some (str "irc.example"), str "001", some (str "chatter_user :Welcome")⟩
      (by decide) rfl (Or.inl rfl)).2⟩

/-! ### C3: PRIVMSG routing -/

theorem process_line_privmsg (e : Eng) (l : Str) (pfxS p : Str)
    (hp : parseLine l = some ⟨some pfxS, str "PRIVMSG", some p⟩) :
    process_line e l
      = (handlePrivmsg { e with store := appendToNamed e.store statusN l }
          (some pfxS) p, []) := by
  have hping : ¬ ((str "PING :").isPrefixOf l = true) := by
    intro hpre
    obtain ⟨t, -, hpl⟩ := parseLine_ping l hpre
    rw [hp] at hpl
    simp only [Option.some.injEq] at hpl
    have hcmd : str "PRIVMSG" = str "PING" := congrArg Parsed.command hpl
    exact absurd hcmd (by decide)
  unfold process_line
  rw [if_neg hping, hp]
  dsimp only
  unfold process_parsed
  rw [if_neg (by
    rintro ⟨-, hc | hc⟩
    · exact absurd (show str "PRIVMSG" = str "001" from hc) (by decide)
    · exact absurd (show str "PRIVMSG" = str "376" from hc) (by decide))]
  dsimp only
  rw [if_pos rfl]

theorem handlePrivmsg_chan (e : Eng) (pfxS p tRaw msg : Str)
    (hsp : splitAtChar ':' p = (tRaw, some msg))
    (hh : (ctrim tRaw).head? = some '#') :
    handlePrivmsg e (some pfxS) p
      = { e with store :=
            (appendToNamed (getOrCreate e.store (ctrim tRaw)) (ctrim tRaw)
              (str "<" ++ nickOnly pfxS ++ str "> " ++ msg)) } := by
  have hts : ¬ (ctrim tRaw = statusN
      ∧ (get_buffer_by_name e.store statusN).isSome = true) := by
    rintro ⟨h1, -⟩
    rw [h1] at hh
    exact absurd hh (by decide)
  unfold handlePrivmsg
  rw [hsp]
  dsimp only
  rw [if_pos hh]
  dsimp only
  rw [if_neg hts]

theorem handlePrivmsg_nick (e : Eng) (pfxS p tRaw msg : Str)
    (hsp : splitAtChar ':' p = (tRaw, some msg))
    (hh : ¬ (ctrim tRaw).head? = some '#')
    (hnick : ctrim tRaw = e.nickname)
    (hsn : nickOnly pfxS ≠ statusN) :
    handlePrivmsg e (some pfxS) p
      = { e with store :=
            (appendToNamed (getOrCreate e.store (nickOnly pfxS)) (nickOnly pfxS)
              (str "<" ++ nickOnly pfxS ++ str "> " ++ msg)) } := by
  unfold handlePrivmsg
  rw [hsp]
  dsimp only
  rw [if_neg hh, if_pos hnick]
  dsimp only
  rw [if_neg (by rintro ⟨h1, -⟩; exact hsn h1)]

theorem handlePrivmsg_nick_status (e : Eng) (pfxS p tRaw msg : Str)
    (hsp : splitAtChar ':' p = (tRaw, some msg))
    (hh : ¬ (ctrim tRaw).head? = some '#')
    (hnick : ctrim tRaw = e.nickname)
    (hsn : nickOnly pfxS = statusN)
    (hst : (get_buffer_by_name e.store statusN).isSome = true) :
    handlePrivmsg e (some pfxS) p = e := by
  unfold handlePrivmsg
  rw [hsp]
  dsimp only
  rw [if_neg hh, if_pos hnick]
  dsimp only
  rw [hsn]
  unfold getOrCreate
  rw [if_pos hst, if_pos ⟨rfl, hst⟩]

theorem handlePrivmsg_other (e : Eng) (pfxOpt : Option Str) (p tRaw msg : Str)
    (hsp : splitAtChar ':' p = (tRaw, some msg))
    (hh : ¬ (ctrim tRaw).head? = some '#')
    (hnick : ¬ ctrim tRaw = e.nickname) :
    handlePrivmsg e pfxOpt p = e := by
  unfold handlePrivmsg
  rw [hsp]
  dsimp only
  rw [if_neg hh, if_neg hnick]
  cases hst : (get_buffer_by_name e.store statusN).isSome with
  | true =>
    rw [if_pos rfl]
    dsimp only
    rw [if_pos ⟨rfl, rfl⟩]
  | false =>
    rw [if_neg (by decide)]

/-- C3 (amended: a channel target is one beginning with '#'; a target
beginning with '&' is not recognized as a channel and falls through to the
status fallback).  For every inbound prefixed PRIVMSG with target `T` (the
first colon-free parameter segment, whitespace-trimmed) and text `X`: the line
emits no outbound traffic and the raw line is appended to `"status"` exactly
once; if `T` begins with '#', `"<sender-nick> X"` is appended to the channel
buffer named `T`, created if absent; if `T` equals our nickname (and the
sender is not literally named "status"), the line is appended to a buffer
named after the sender's nickname, created if absent; otherwise nothing but
the raw status trace happens — the formatted line is not duplicated into
`"status"`. -/
theorem c3_privmsg_routing (e : Eng) (l : Str) (pfxS p tRaw msg : Str)
    (hp : parseLine l = some ⟨some pfxS, str "PRIVMSG", some p⟩)
    (hsp : splitAtChar ':' p = (tRaw, some msg))
    (hst : (get_buffer_by_name e.store statusN).isSome = true) :
    (process_line e l).2 = []
    ∧ bufLines (process_line e l).1.store statusN
        = (bufLines e.store statusN).map (· ++ [l])
    ∧ ((ctrim tRaw).head? = some '#' →
        bufLines (process_line e l).1.store (ctrim tRaw)
          = some ((bufLines e.store (ctrim tRaw)).getD []
              ++ [str "<" ++ nickOnly pfxS ++ str "> " ++ msg]))
    ∧ (¬ (ctrim tRaw).head? = some '#' → ctrim tRaw = e.nickname →
        nickOnly pfxS ≠ statusN →
        bufLines (process_line e l).1.store (nickOnly pfxS)
          = some ((bufLines e.store (nickOnly pfxS)).getD []
              ++ [str "<" ++ nickOnly pfxS ++ str "> " ++ msg]))
    ∧ (¬ (ctrim tRaw).head? = some '#' → ¬ ctrim tRaw = e.nickname →
        (process_line e l).1.store = appendToNamed e.store statusN l) := by
  have hred := process_line_privmsg e l pfxS p hp
  have hst0 : (get_buffer_by_name
      ({ e with store := appendToNamed e.store statusN l } : Eng).store
        statusN).isSome = true := by
    show (get_buffer_by_name (appendToNamed e.store statusN l) statusN).isSome = true
    rw [get_appendToNamed_isSome]
    exact hst
  have hnn :
      ({ e with store := appendToNamed e.store statusN l } : Eng).nickname
        = e.nickname := rfl
  refine ⟨by rw [hred], ?_, ?_, ?_, ?_⟩
  · -- status receives the raw line exactly once
    rw [hred]
    by_cases hh : (ctrim tRaw).head? = some '#'
    · have hts : statusN ≠ ctrim tRaw := by
        intro he
        rw [← he] at hh
        exact absurd hh (by decide)
      rw [handlePrivmsg_chan { e with store := appendToNamed e.store statusN l }
        pfxS p tRaw msg hsp hh]
      dsimp only
      rw [bufLines_appendToNamed_other _ _ _ _ hts,
        bufLines_getOrCreate_other _ _ _ hts,
        bufLines_appendToNamed_self]
    · by_cases hnick : ctrim tRaw = e.nickname
      · by_cases hsn : nickOnly pfxS = statusN
        · rw [handlePrivmsg_nick_status
            { e with store := appendToNamed e.store statusN l }
            pfxS p tRaw msg hsp hh (hnn ▸ hnick) hsn hst0]
          dsimp only
          rw [bufLines_appendToNamed_self]
        · rw [handlePrivmsg_nick
            { e with store := appendToNamed e.store statusN l }
            pfxS p tRaw msg hsp hh (hnn ▸ hnick) hsn]
          dsimp only
          rw [bufLines_appendToNamed_other _ _ _ _ (Ne.symm hsn),
            bufLines_getOrCreate_other _ _ _ (Ne.symm hsn),
            bufLines_appendToNamed_self]
      · rw [handlePrivmsg_other
          { e with store := appendToNamed e.store statusN l }
          (some pfxS) p tRaw msg hsp hh (hnn ▸ hnick)]
        dsimp only
        rw [bufLines_appendToNamed_self]
  · -- channel branch
    intro hh
    have hts : ctrim tRaw ≠ statusN := by
      intro he
      rw [he] at hh
      exact absurd hh (by decide)
    rw [hred, handlePrivmsg_chan { e with store := appendToNamed e.store statusN l }
      pfxS p tRaw msg hsp hh]
    dsimp only
    rw [bufLines_appendToNamed_self, bufLines_getOrCreate_self,
      bufLines_appendToNamed_other _ _ _ _ hts]
    rfl
  · -- private-message branch
    intro hh hnick hsn
    rw [hred, handlePrivmsg_nick { e with store := appendToNamed e.store statusN l }
      pfxS p tRaw msg hsp hh (hnn ▸ hnick) hsn]
    dsimp only
    rw [bufLines_appendToNamed_self, bufLines_getOrCreate_self,
      bufLines_appendToNamed_other _ _ _ _ hsn]
    rfl
  · -- fallback branch: only the raw status trace
    intro hh hnick
    rw [hred, handlePrivmsg_other { e with store := appendToNamed e.store statusN l }
      (some pfxS) p tRaw msg hsp hh (hnn ▸ hnick)]

/-- C3 fails as stated for '&' channels: a PRIVMSG to `&chan` creates no
buffer named `&chan` — the line is routed to the status fallback instead. -/
theorem c3_counterexample :
    get_buffer_by_name
      (process_line eng0 (str ":alice!a@h PRIVMSG &chan :hi")).1.store
      (str "&chan") = none := by
  decide

/-- Witness for C3 on the spec's channel-routing scenario. -/
theorem c3_privmsg_routing_witness :
    parseLine (str ":alice!a@h PRIVMSG #chatter :hello world")
      = some ⟨some (str "alice!a@h"), str "PRIVMSG",
          some (str "#chatter :hello world")⟩
    ∧ splitAtChar ':' (str "#chatter :hello world")
        = (str "#chatter ", some (str "hello world"))
    ∧ bufLines
        (process_line eng0 (str ":alice!a@h PRIVMSG #chatter :hello world")).1.store
        statusN
        = (bufLines eng0.store statusN).map
            (· ++ [str ":alice!a@h PRIVMSG #chatter :hello world"])
    ∧ ((ctrim (str "#chatter ")).head? = some '#' →
        bufLines
          (process_line eng0 (str ":alice!a@h PRIVMSG #chatter :hello world")).1.store
          (ctrim (str "#chatter "))
          = some ((bufLines eng0.store (ctrim (str "#chatter "))).getD []
              ++ [str "<" ++ nickOnly (str "alice!a@h") ++ str "> "
                    ++ str "hello world"])) :=
  ⟨by decide, by decide,
    (c3_privmsg_routing eng0 _ (str "alice!a@h") (str "#chatter :hello world")
      (str "#chatter ") (str "hello world") (by decide) (by decide) (by decide)).2.1,
    (c3_privmsg_routing eng0 _ (str "alice!a@h") (str "#chatter :hello world")
      (str "#chatter ") (str "hello world") (by decide) (by decide) (by decide)).2.2.1⟩

/-! ## Slash-command interpreter (commands.c) and input dispatch (tui.c)

The user's active buffer is designated by the store's `active` name; the C
code passes the `active_buffer` node pointer and reads its `name`. -/

/-- `strtok_r` tokenization on single-space delimiters: runs of spaces
separate tokens, empty tokens are never produced. -/
def tokenizeAux : Str → Str → List Str
  | [], acc => if acc = [] then [] else [acc.reverse]
  | c :: rest, acc =>
    if c = ' ' then
      if acc = [] then tokenizeAux rest []
      else acc.reverse :: tokenizeAux rest []
    else tokenizeAux rest (c :: acc)

def tokenize (s : Str) : List Str := tokenizeAux s []

/-- `handle_join_command` (commands.c lines 53-61). -/
def handle_join_cmd (st : Store) (args : List Str) : Store × List Str :=
  match args with
  | [] => (st, [])
  | a :: _ =>
    let line := str "JOIN " ++ a ++ CRLF
    (irc_send_effect st line, [line])

/-- The send-and-remove tail of `handle_part_command` (commands.c lines
96-123): join the message arguments with single spaces, emit
`PART <channel> :<message>\r\n`, log `--> PART <channel> (<message>)` to
`"status"`, and remove the channel's buffer if one exists. -/
def part_send (st : Store) (ch : Str) (msgArgs : List Str) : Store × List Str :=
  let m := List.intercalate (str " ") msgArgs
  let line := str "PART " ++ ch ++ str " :" ++ m ++ CRLF
  let st1 := irc_send_effect st line
  let st2 := appendToNamed st1 statusN
    (str "--> PART " ++ ch ++ str " (" ++ m ++ str ")")
  (remove_buffer st2 ch, [line])

/-- `handle_part_command` (commands.c lines 63-124): the first argument is
taken as the channel iff a buffer with that name exists; otherwise the
channel defaults to the active buffer's name iff that name starts with '#';
otherwise an error line goes to `"status"` and nothing is sent. -/
def handle_part_cmd (st : Store) (args : List Str) : Store × List Str :=
  match args with
  | a :: rest =>
    if (get_buffer_by_name st a).isSome then part_send st a rest
    else if st.active.head? = some '#' then part_send st st.active args
    else (appendToNamed st statusN (str "Invalid channel: " ++ a), [])
  | [] =>
    if st.active.head? = some '#' then part_send st st.active []
    else (appendToNamed st statusN (str "Usage: /part [#channel] [message]"), [])

/-- `handle_nick` (commands.c lines 126-134). -/
def handle_nick_cmd (st : Store) (args : List Str) : Store × List Str :=
  match args with
  | [] => (appendToNamed st statusN (str "Usage: /nick <new_nickname>"), [])
  | a :: _ =>
    let line := str "NICK " ++ a ++ CRLF
    (irc_send_effect st line, [line])

/-- `parse_command` (commands.c lines 136-203): `//text` is sent as literal
text (PRIVMSG to an active channel, raw line otherwise); other `/cmd` lines
are tokenized and dispatched against the join/part/nick table (up to 15
arguments); unknown commands produce a status line only. -/
def parse_command (e : Eng) (input : Str) : Eng × List Str :=
  match input with
  | [] => (e, [])
  | c0 :: rest0 =>
    if c0 ≠ '/' then (e, [])
    else
      match rest0 with
      | '/' :: rest =>
        let body := '/' :: rest
        if e.store.active.head? = some '#' then
          let line := str "PRIVMSG " ++ e.store.active ++ str " :" ++ body ++ CRLF
          let st1 := irc_send_effect e.store line
          let st2 := appendToNamed st1 e.store.active
            (str "<" ++ e.nickname ++ str "> " ++ body)
          ({ e with store := st2 }, [line])
        else
          let line := body ++ CRLF
          let st1 := irc_send_effect e.store line
          let st2 := appendToNamed st1 e.store.active body
          ({ e with store := st2 }, [line])
      | _ =>
        match tokenize rest0 with
        | [] => (e, [])
        | cmd :: argTokens =>
          let args := argTokens.take 15
          if cmd = str "join" then
            let r := handle_join_cmd e.store args
            ({ e with store := r.1 }, r.2)
          else if cmd = str "part" then
            let r := handle_part_cmd e.store args
            ({ e with store := r.1 }, r.2)
          else if cmd = str "nick" then
            let r := handle_nick_cmd e.store args
            ({ e with store := r.1 }, r.2)
          else
            ({ e with store := (appendToNamed e.store statusN
                (str "Unknown command: /" ++ cmd)) }, [])

/-- The Enter branch of `tui_handle_input` (tui.c lines 336-354), returning
the new engine state, the outbound lines, and the `running` flag after the
keystroke: the literal input `"/quit"` only clears `running`; other `/`
inputs go to the command interpreter; plain text is sent raw from the
`"status"` buffer or as PRIVMSG to the active buffer with a local echo. -/
def tui_enter (e : Eng) (input : Str) : (Eng × List Str) × Bool :=
  if input = str "/quit" then ((e, []), false)
  else if input.head? = some '/' then (parse_command e input, true)
  else if input.length > 0 then
    if e.store.active = statusN then
      let line := input ++ CRLF
      (({ e with store := irc_send_effect e.store line }, [line]), true)
    else
      let line := str "PRIVMSG " ++ e.store.active ++ str " :" ++ input ++ CRLF
      let st1 := irc_send_effect e.store line
      let st2 := appendToNamed st1 e.store.active
        (str "<" ++ e.nickname ++ str "> " ++ input)
      (({ e with store := st2 }, [line]), true)
  else ((e, []), true)

/-! ### C5: /part -/

/-- C5 (amended): in `handle_part_command` the first argument is taken as the
channel iff a buffer with that name exists; otherwise the channel defaults to
the active buffer's name iff that name starts with '#' (not '&'; an active
'&' buffer is rejected with an error).  In the default case the message is
all the arguments joined by single spaces, the client emits
`PART <channel> :<message>\r\n`, and after the send the local channel buffer
is removed, with active selection falling back to `"status"` when the store
held exactly the status buffer and the channel.  (The removal and active
fallback go through `remove_buffer`, which is modelled from the spec.) -/
theorem c5_part_command (sb cb : Buffer) (args : List Str)
    (hsb : sb.name = statusN)
    (hcb : cb.name.head? = some '#')
    (hargs : args.head?.elim True (fun a => (get_buffer_by_name
        (Store.mk [sb, cb] cb.name) a).isSome = false)) :
    (handle_part_cmd (Store.mk [sb, cb] cb.name) args).2
        = [str "PART " ++ cb.name ++ str " :"
            ++ List.intercalate (str " ") args ++ CRLF]
    ∧ get_buffer_by_name (handle_part_cmd (Store.mk [sb, cb] cb.name) args).1
        cb.name = none
    ∧ (handle_part_cmd (Store.mk [sb, cb] cb.name) args).1.active = statusN := by
  have hcbs : ¬ cb.name = statusN := by
    intro he
    rw [he] at hcb
    exact absurd hcb (by decide)
  have hred : handle_part_cmd (Store.mk [sb, cb] cb.name) args
      = part_send (Store.mk [sb, cb] cb.name) cb.name args := by
    cases args with
    | nil =>
      unfold handle_part_cmd
      dsimp only
      rw [if_pos hcb]
    | cons a rest =>
      simp only [List.head?_cons, Option.elim] at hargs
      unfold handle_part_cmd
      dsimp only
      rw [if_neg (show ¬ ((get_buffer_by_name (Store.mk [sb, cb] cb.name) a).isSome
          = true) from by rw [hargs]; decide)]
      rw [if_pos hcb]
  rw [hred]
  have happ2 : ∀ (b1 b2 : Buffer) (act y : Str), b1.name = statusN →
      appendToNamed (Store.mk [b1, b2] act) statusN y
        = Store.mk [buffer_append_message b1 y, b2] act := by
    intro b1 b2 act y h
    unfold appendToNamed updateFirst
    rw [if_pos h]
  have hrm : ∀ (b1 b2 : Buffer) (y : Str), b1.name = statusN → b2.name = y →
      ¬ y = statusN →
      remove_buffer (Store.mk [b1, b2] y) y = Store.mk [b1] b1.name := by
    intro b1 b2 y h1 h2 hy
    have hb1 : ¬ (b1.name == y) = true := by
      rw [h1]
      simp only [beq_iff_eq]
      exact fun he => hy he.symm
    have hb2 : (b2.name == y) = true := by
      rw [h2]
      simp only [beq_iff_eq]
    unfold remove_buffer
    rw [if_neg hy]
    have hfi : (Store.mk [b1, b2] y).bufs.findIdx? (fun b => b.name == y)
        = some 1 := by
      show List.findIdx? (fun b => b.name == y) [b1, b2] = some 1
      rw [List.findIdx?_cons, if_neg hb1, List.findIdx?_cons, if_pos hb2]
    rw [hfi]
    dsimp only
    rw [if_pos rfl]
    have h20 : (1 + 1) % ([b1, b2] : List Buffer).length = 0 := by simp
    rw [h20]
    rfl
  unfold part_send irc_send_effect
  dsimp only
  rw [happ2 sb cb cb.name _ hsb,
    happ2 (buffer_append_message sb _) cb cb.name _ hsb,
    hrm (buffer_append_message (buffer_append_message sb _) _) cb cb.name
      hsb rfl hcbs]
  refine ⟨rfl, ?_, hsb⟩
  show List.find? _ [buffer_append_message (buffer_append_message sb _) _] = none
  rw [List.find?_cons_of_neg]
  · rfl
  · show ¬ ((buffer_append_message (buffer_append_message sb _) _).name
      == cb.name) = true
    rw [show (buffer_append_message (buffer_append_message sb _) _).name
      = statusN from hsb]
    simp only [beq_iff_eq]
    exact fun he => hcbs he.symm

/-- C5 fails as stated on '&' channels: with the active buffer named
`"&chan"` and no buffer named `"bye"`, `/part bye` sends nothing and removes
nothing — the code rejects the context because the active name does not start
with '#'. -/
theorem c5_counterexample :
    (handle_part_cmd
        (Store.mk [create_buffer statusN, create_buffer (str "&chan")]
          (str "&chan")) [str "bye"]).2 = []
    ∧ get_buffer_by_name
        (handle_part_cmd
          (Store.mk [create_buffer statusN, create_buffer (str "&chan")]
            (str "&chan")) [str "bye"]).1 (str "&chan") ≠ none := by
  constructor
  · decide
  · decide

/-- Witness for C5 on the spec's `/part bye bye` scenario in `"#chatter"`. -/
theorem c5_part_command_witness :
    (create_buffer statusN).name = statusN
    ∧ (create_buffer (str "#chatter")).name.head? = some '#'
    ∧ (handle_part_cmd
        (Store.mk [create_buffer statusN, create_buffer (str "#chatter")]
          (create_buffer (str "#chatter")).name) [str "bye", str "bye"]).2
        = [str "PART " ++ (create_buffer (str "#chatter")).name ++ str " :"
            ++ List.intercalate (str " ") [str "bye", str "bye"] ++ CRLF]
    ∧ (handle_part_cmd
        (Store.mk [create_buffer statusN, create_buffer (str "#chatter")]
          (create_buffer (str "#chatter")).name) [str "bye", str "bye"]).1.active
        = statusN :=
  ⟨rfl, by decide,
    (c5_part_command (create_buffer statusN) (create_buffer (str "#chatter"))
      [str "bye", str "bye"] rfl (by decide)
      (by simp only [List.head?_cons, Option.elim]; decide)).1,
    (c5_part_command (create_buffer statusN) (create_buffer (str "#chatter"))
      [str "bye", str "bye"] rfl (by decide)
      (by simp only [List.head?_cons, Option.elim]; decide)).2.2⟩

/-! ### C6: /quit -/

/-- C6 (amended): the input `"/quit"` (typed exactly, with no arguments) only
clears the `running` flag, which stops the event loop after the current
iteration; it emits no outbound traffic — in particular no `QUIT` message is
sent to the server — and leaves the session state untouched.  The transport
is closed only afterwards, by the teardown path in `main` once `tui_run`
returns. -/
theorem c6_quit (e : Eng) :
    tui_enter e (str "/quit") = ((e, []), false) := by
  unfold tui_enter
  rw [if_pos rfl]

/-- C6 fails as stated: no outbound line beginning with `"QUIT"` (indeed no
outbound line at all) is produced when the user types `/quit`; the claim
requires `QUIT :<optional reason>` to be emitted. -/
theorem c6_counterexample :
    (¬ ∃ out ∈ (tui_enter eng0 (str "/quit")).1.2,
        (str "QUIT").isPrefixOf out = true)
    ∧ (tui_enter eng0 (str "/quit")).2 = false := by
  constructor
  · decide
  · decide

/-! ### C10: irc_send echoes before writing -/

/-- C10: for every outbound line, `irc_send` appends the echo
`"-> <line-without-CRLF>"` to the `"status"` buffer before attempting the
transport write: the echo is recorded for both write outcomes, the store
after a failed write (result -1) equals the store after a successful one, so
the send is not atomic with respect to the status buffer. -/
theorem c10_echo_before_write (st : Store) (data : Str) (ls : List Str)
    (h : bufLines st statusN = some ls) :
    (∀ ok : Bool,
      bufLines (irc_send st data ok).1 statusN = some (ls ++ [echoLine data]))
    ∧ (irc_send st data false).2 = -1
    ∧ (irc_send st data false).1 = (irc_send st data true).1 := by
  refine ⟨?_, rfl, rfl⟩
  intro ok
  show bufLines (irc_send_effect st data) statusN = _
  unfold irc_send_effect
  rw [bufLines_appendToNamed_self, h]
  rfl

/-- Witness for C10 at a concrete store and line. -/
theorem c10_echo_before_write_witness :
    bufLines (Store.mk [create_buffer statusN] statusN) statusN = some []
    ∧ (∀ ok : Bool,
        bufLines (irc_send (Store.mk [create_buffer statusN] statusN)
            (str "NICK chatter_user\r\n") ok).1 statusN
          = some ([] ++ [echoLine (str "NICK chatter_user\r\n")]))
    ∧ (irc_send (Store.mk [create_buffer statusN] statusN)
        (str "NICK chatter_user\r\n") false).2 = -1 :=
  ⟨by decide,
    (c10_echo_before_write _ _ [] (by decide)).1,
    (c10_echo_before_write _ _ [] (by decide)).2.1⟩

end Chatter
